import Mathlib

/-!
Verification of the qnexus job-completion watcher and lazy query-iterator
subsystem, as specified in the repository's design document.  The Python
package sources are not present in this tree (only notebooks, docs and CI
configuration are), so every definition below is a shallow embedding
modelled from the specification's words.
-/

deriving instance DecidableEq for Except

namespace QNexus

/-- Modelled from the spec: the JobStatus kind enumeration of §3
(the package module `qnexus.models.job_status` is missing from the tree). -/
inductive JobStatusKind where
  | SUBMITTED
  | QUEUED
  | RUNNING
  | COMPLETED
  | ERRORED
  | CANCELLED
  | CANCELLING
  | DEPLETED
  | TERMINATED
  | RETRYING
deriving DecidableEq, Repr

/-- Modelled from the spec: "Terminal kinds: COMPLETED, ERRORED, CANCELLED,
DEPLETED, TERMINATED. All others are non-terminal." -/
def JobStatusKind.isTerminal : JobStatusKind → Bool
  | .COMPLETED => true
  | .ERRORED => true
  | .CANCELLED => true
  | .DEPLETED => true
  | .TERMINATED => true
  | _ => false

/-- Modelled from the spec: "JobStatus: a tagged value with kind ... plus an
optional human-readable message and optional error detail." -/
structure JobStatus where
  kind : JobStatusKind
  message : Option String := none
  errorDetail : Option String := none
deriving DecidableEq, Repr

/-- Modelled from the spec: transport-level error classes of §6 and §7
(the HTTP/websocket client module is missing from the tree). -/
inductive TransportError where
  | timeout
  | connectionReset
  | http5xx (code : Nat)
  | http401
  | http403
  | http404
  | malformedPayload
deriving DecidableEq, Repr

/-- Modelled from the spec: "Transient (timeout, connection reset, 5xx)";
"Fatal-immediate (401/403, 404, malformed payload)". -/
def TransportError.isTransient : TransportError → Bool
  | .timeout => true
  | .connectionReset => true
  | .http5xx _ => true
  | _ => false

/-- Outcome of one operation run through the shared retry primitive. -/
inductive RetryResult (α : Type) where
  | success (a : α)
  | fatalError (e : TransportError)
  | exhausted (e : TransportError)
deriving DecidableEq, Repr

/-- Modelled from the spec: the shared bounded-retry primitive of §4.1 step 4
and §4.2 ("transient errors follow the same bounded-retry policy as
JobWatcher (shared retry primitive)"); the package retry helper is missing
from the tree.  `atts` is the (finite prefix of the) sequence of attempt
outcomes the transport would produce; `bound` is the number of retries still
allowed after the first attempt.  Returns `none` when the recorded attempt
trace ends before the operation resolves, otherwise the resolution together
with the unconsumed suffix of the trace. -/
def runWithRetry {α : Type} (bound : Nat) :
    List (Except TransportError α) →
      Option (RetryResult α × List (Except TransportError α))
  | [] => none
  | att :: rest =>
    match att with
    | .ok x => some (.success x, rest)
    | .error e =>
      if e.isTransient then
        match bound with
        | 0 => some (.exhausted e, rest)
        | b + 1 => runWithRetry b rest
      else some (.fatalError e, rest)

theorem runWithRetry_length {α : Type} {bound : Nat}
    {atts rest : List (Except TransportError α)} {r : RetryResult α}
    (h : runWithRetry bound atts = some (r, rest)) :
    rest.length < atts.length := by
  induction atts generalizing bound with
  | nil => simp [runWithRetry] at h
  | cons att tl ih =>
    rw [runWithRetry.eq_def] at h
    cases att with
    | ok x =>
      simp at h
      simp [← h.2]
    | error e =>
      cases he : e.isTransient with
      | true =>
        cases bound with
        | zero =>
          simp [he] at h
          simp [← h.2]
        | succ b =>
          simp [he] at h
          exact Nat.lt_trans (ih h) (Nat.lt_succ_self _)
      | false =>
        simp [he] at h
        simp [← h.2]

/-- Modelled from the spec: the error taxonomy of §7 as seen by a caller of
`wait_for` — Timeout "carries the last-observed JobStatus", transient
exhaustion "converts to Fatal" but is distinguishable
("transient-exhausted"), other fatal errors propagate as-is. -/
inductive WaitFailure where
  | timedOut (lastObserved : JobStatus)
  | fatal (e : TransportError)
  | transientExhausted (e : TransportError)
deriving DecidableEq, Repr

/-- Modelled from the spec: the inputs of
`wait_for(handle, timeout, target_statuses, poll_interval)` in §4.1, with
wall-clock time abstracted to ticks and the retry bound made explicit. -/
structure WaitArgs where
  timeout : Option Nat
  targets : List JobStatusKind
  pollInterval : Nat
  retryBound : Nat
deriving Repr

/-- Modelled from the spec: `target_statuses` "defaults to the terminal
set". -/
def defaultTargets : List JobStatusKind :=
  [.COMPLETED, .ERRORED, .CANCELLED, .DEPLETED, .TERMINATED]

/-- A status matches the target set when its kind is listed. -/
def matchesTarget (targets : List JobStatusKind) (s : JobStatus) : Bool :=
  targets.contains s.kind

theorem matchesTarget_default (s : JobStatus) :
    matchesTarget defaultTargets s = s.kind.isTerminal := by
  cases s with
  | mk kind message errorDetail =>
    cases kind <;> rfl

/-- Modelled from the spec: the deadline is "derived from a caller-supplied
timeout or none"; `none` means unbounded waiting. -/
def deadlineElapsed : Option Nat → Nat → Bool
  | none, _ => false
  | some t, elapsed => decide (t ≤ elapsed)

/-- Result of one `wait_for` run over recorded channel/poll traces.
`outcome` is `none` when the recorded traces end before the wait resolves;
`eventsConsumed` counts channel events received and `pollsConsumed` counts
HTTP status-fetch attempts issued, so that "never invokes the channel
again" and "without blocking" are statable. -/
structure WaitResult where
  outcome : Option (Except WaitFailure JobStatus)
  eventsConsumed : Nat
  pollsConsumed : Nat
deriving DecidableEq, Repr

/-- Modelled from the spec: the HTTP-polling fallback loop of §4.1 steps
3-5 — "issue a status-fetch request, wait `poll_interval`, repeat — each
iteration checks the deadline", with each status fetch run through the
shared retry primitive.  `atts` records the transport's successive attempt
outcomes. -/
def pollLoop (args : WaitArgs) (elapsed : Nat) (last : JobStatus)
    (atts : List (Except TransportError JobStatus)) : WaitResult :=
  if deadlineElapsed args.timeout elapsed then
    ⟨some (.error (.timedOut last)), 0, 0⟩
  else
    match hr : runWithRetry args.retryBound atts with
    | none => ⟨none, 0, atts.length⟩
    | some (.fatalError e, rest) =>
      ⟨some (.error (.fatal e)), 0, atts.length - rest.length⟩
    | some (.exhausted e, rest) =>
      ⟨some (.error (.transientExhausted e)), 0, atts.length - rest.length⟩
    | some (.success s, rest) =>
      if matchesTarget args.targets s then
        ⟨some (.ok s), 0, atts.length - rest.length⟩
      else
        let r := pollLoop args (elapsed + args.pollInterval) s rest
        ⟨r.outcome, 0, (atts.length - rest.length) + r.pollsConsumed⟩
termination_by atts.length
decreasing_by exact runWithRetry_length hr

/-- Modelled from the spec: the channel-listening phase of §4.1 steps 1-3 —
suspend for status events, return on a target match, fall back to the
polling loop when the channel closes before a match.  Receiving one event
advances the clock by one tick. -/
def listenLoop (args : WaitArgs) (elapsed : Nat) (last : JobStatus)
    (evs : List JobStatus)
    (atts : List (Except TransportError JobStatus)) : WaitResult :=
  match evs with
  | [] => pollLoop args elapsed last atts
  | ev :: rest =>
    if deadlineElapsed args.timeout elapsed then
      ⟨some (.error (.timedOut last)), 0, 0⟩
    else if matchesTarget args.targets ev then
      ⟨some (.ok ev), 1, 0⟩
    else
      let r := listenLoop args (elapsed + 1) ev rest atts
      ⟨r.outcome, r.eventsConsumed + 1, r.pollsConsumed⟩

/-- Modelled from the spec: `wait_for` of §4.1 (the package function
`qnexus.jobs.wait_for` is missing from the tree; only notebook callers are
present).  `initial` is the last status observable at call time (possibly
SUBMITTED); `channel` is `some evs` when the websocket opens and delivers
the events `evs` before closing, `none` when it cannot open at all;
`polls` records the HTTP attempt outcomes the transport would produce. -/
def wait_for (args : WaitArgs) (initial : JobStatus)
    (channel : Option (List JobStatus))
    (polls : List (Except TransportError JobStatus)) : WaitResult :=
  match channel with
  | some evs => listenLoop args 0 initial evs polls
  | none => pollLoop args 0 initial polls

/-- Modelled from the spec's words for the pure-polling execution: "issue a
status-fetch request, wait `poll_interval`, repeat — each iteration checks
the deadline", retrying a transient failure "up to a bounded count" before
treating it as fatal, a non-transient error being "fatal immediately".
Written as a single pass over the attempt trace with an inline retry
counter, independently of `pollLoop`, to compare the two. -/
def pollingOnlyAux (args : WaitArgs) (elapsed : Nat) (last : JobStatus)
    (retriesLeft : Nat) :
    List (Except TransportError JobStatus) → WaitResult
  | [] =>
    if deadlineElapsed args.timeout elapsed then
      ⟨some (.error (.timedOut last)), 0, 0⟩
    else ⟨none, 0, 0⟩
  | att :: rest =>
    if deadlineElapsed args.timeout elapsed then
      ⟨some (.error (.timedOut last)), 0, 0⟩
    else
      match att with
      | .ok s =>
        if matchesTarget args.targets s then ⟨some (.ok s), 0, 1⟩
        else
          let r :=
            pollingOnlyAux args (elapsed + args.pollInterval) s
              args.retryBound rest
          ⟨r.outcome, 0, 1 + r.pollsConsumed⟩
      | .error e =>
        if e.isTransient then
          match retriesLeft with
          | 0 => ⟨some (.error (.transientExhausted e)), 0, 1⟩
          | rl + 1 =>
            let r := pollingOnlyAux args elapsed last rl rest
            ⟨r.outcome, 0, 1 + r.pollsConsumed⟩
        else ⟨some (.error (.fatal e)), 0, 1⟩

/-- The execution of `wait_for` that uses only HTTP polling, per the spec's
fallback description. -/
def pollingOnlyWait (args : WaitArgs) (initial : JobStatus)
    (polls : List (Except TransportError JobStatus)) : WaitResult :=
  pollingOnlyAux args 0 initial args.retryBound polls

theorem pollingOnlyAux_none (args : WaitArgs) :
    ∀ (atts : List (Except TransportError JobStatus)) (b elapsed : Nat)
      (last : JobStatus),
      deadlineElapsed args.timeout elapsed = false →
      runWithRetry b atts = none →
      pollingOnlyAux args elapsed last b atts = ⟨none, 0, atts.length⟩ := by
  intro atts
  induction atts with
  | nil =>
    intro b elapsed last hd _
    simp [pollingOnlyAux, hd]
  | cons att tl ih =>
    intro b elapsed last hd hR
    rw [runWithRetry.eq_def] at hR
    cases att with
    | ok x => simp at hR
    | error e =>
      cases he : e.isTransient with
      | true =>
        cases b with
        | zero => simp [he] at hR
        | succ b' =>
          simp [he] at hR
          simp [pollingOnlyAux, hd, he, ih b' elapsed last hd hR]
          omega
      | false => simp [he] at hR

theorem pollingOnlyAux_fatal (args : WaitArgs) :
    ∀ (atts rest : List (Except TransportError JobStatus)) (b elapsed : Nat)
      (last : JobStatus) (e : TransportError),
      deadlineElapsed args.timeout elapsed = false →
      runWithRetry b atts = some (.fatalError e, rest) →
      pollingOnlyAux args elapsed last b atts =
        ⟨some (.error (.fatal e)), 0, atts.length - rest.length⟩ := by
  intro atts
  induction atts with
  | nil =>
    intro rest b elapsed last e _ hR
    simp [runWithRetry] at hR
  | cons att tl ih =>
    intro rest b elapsed last e hd hR
    have hlen := runWithRetry_length hR
    rw [runWithRetry.eq_def] at hR
    cases att with
    | ok x => simp at hR
    | error e' =>
      cases he : e'.isTransient with
      | true =>
        cases b with
        | zero => simp [he] at hR
        | succ b' =>
          simp [he] at hR
          have hlen' := runWithRetry_length hR
          simp [pollingOnlyAux, hd, he, ih rest b' elapsed last e hd hR]
          omega
      | false =>
        simp [he] at hR
        have hf : e'.isTransient = false := he
        obtain ⟨he1, he2⟩ := hR
        subst he1
        subst he2
        simp [pollingOnlyAux, hd, hf]

theorem pollingOnlyAux_exhausted (args : WaitArgs) :
    ∀ (atts rest : List (Except TransportError JobStatus)) (b elapsed : Nat)
      (last : JobStatus) (e : TransportError),
      deadlineElapsed args.timeout elapsed = false →
      runWithRetry b atts = some (.exhausted e, rest) →
      pollingOnlyAux args elapsed last b atts =
        ⟨some (.error (.transientExhausted e)), 0,
          atts.length - rest.length⟩ := by
  intro atts
  induction atts with
  | nil =>
    intro rest b elapsed last e _ hR
    simp [runWithRetry] at hR
  | cons att tl ih =>
    intro rest b elapsed last e hd hR
    have hlen := runWithRetry_length hR
    rw [runWithRetry.eq_def] at hR
    cases att with
    | ok x => simp at hR
    | error e' =>
      cases he : e'.isTransient with
      | true =>
        cases b with
        | zero =>
          simp [he] at hR
          obtain ⟨he1, he2⟩ := hR
          subst he1
          subst he2
          simp [pollingOnlyAux, hd, he]
        | succ b' =>
          simp [he] at hR
          have hlen' := runWithRetry_length hR
          simp [pollingOnlyAux, hd, he, ih rest b' elapsed last e hd hR]
          omega
      | false => simp [he] at hR

theorem pollingOnlyAux_success (args : WaitArgs) :
    ∀ (atts rest : List (Except TransportError JobStatus)) (b elapsed : Nat)
      (last : JobStatus) (s : JobStatus),
      deadlineElapsed args.timeout elapsed = false →
      runWithRetry b atts = some (.success s, rest) →
      pollingOnlyAux args elapsed last b atts =
        (if matchesTarget args.targets s then
          ⟨some (.ok s), 0, atts.length - rest.length⟩
        else
          let r :=
            pollingOnlyAux args (elapsed + args.pollInterval) s
              args.retryBound rest
          ⟨r.outcome, 0, (atts.length - rest.length) + r.pollsConsumed⟩) := by
  intro atts
  induction atts with
  | nil =>
    intro rest b elapsed last s _ hR
    simp [runWithRetry] at hR
  | cons att tl ih =>
    intro rest b elapsed last s hd hR
    have hlen := runWithRetry_length hR
    rw [runWithRetry.eq_def] at hR
    cases att with
    | ok x =>
      simp at hR
      obtain ⟨he1, he2⟩ := hR
      subst he1
      subst he2
      cases hm : matchesTarget args.targets x with
      | true => simp [pollingOnlyAux, hd, hm]
      | false => simp [pollingOnlyAux, hd, hm]
    | error e' =>
      cases he : e'.isTransient with
      | true =>
        cases b with
        | zero => simp [he] at hR
        | succ b' =>
          simp [he] at hR
          have hlen' := runWithRetry_length hR
          cases hm : matchesTarget args.targets s with
          | true =>
            simp [pollingOnlyAux, hd, he, ih rest b' elapsed last s hd hR,
              hm]
            omega
          | false =>
            simp [pollingOnlyAux, hd, he, ih rest b' elapsed last s hd hR,
              hm]
            omega
      | false => simp [he] at hR

theorem pollLoop_eq_pollingOnlyAux (args : WaitArgs) :
    ∀ (n : Nat) (atts : List (Except TransportError JobStatus))
      (elapsed : Nat) (last : JobStatus), atts.length ≤ n →
      pollLoop args elapsed last atts =
        pollingOnlyAux args elapsed last args.retryBound atts := by
  intro n
  induction n with
  | zero =>
    intro atts elapsed last hn
    have : atts = [] := List.length_eq_zero.mp (Nat.le_zero.mp hn)
    subst this
    cases hd : deadlineElapsed args.timeout elapsed with
    | true => rw [pollLoop.eq_def]; simp [hd, pollingOnlyAux]
    | false =>
      rw [pollLoop.eq_def]
      simp only [hd, Bool.false_eq_true, if_false]
      split
      · simp [pollingOnlyAux, hd]
      · rename_i e rest hr
        simp [runWithRetry] at hr
      · rename_i e rest hr
        simp [runWithRetry] at hr
      · rename_i s rest hr
        simp [runWithRetry] at hr
  | succ n ih =>
    intro atts elapsed last hn
    cases hd : deadlineElapsed args.timeout elapsed with
    | true =>
      rw [pollLoop.eq_def]
      cases atts <;> simp [hd, pollingOnlyAux]
    | false =>
      rw [pollLoop.eq_def]
      simp only [hd, Bool.false_eq_true, if_false]
      split
      · rename_i hr
        rw [pollingOnlyAux_none args atts args.retryBound elapsed last hd
          hr]
      · rename_i e rest hr
        rw [pollingOnlyAux_fatal args atts rest args.retryBound elapsed
          last e hd hr]
      · rename_i e rest hr
        rw [pollingOnlyAux_exhausted args atts rest args.retryBound
          elapsed last e hd hr]
      · rename_i s rest hr
        have hlen := runWithRetry_length hr
        have hrest : rest.length ≤ n := by omega
        rw [pollingOnlyAux_success args atts rest args.retryBound elapsed
          last s hd hr]
        cases hm : matchesTarget args.targets s with
        | true => simp [hm]
        | false =>
          simp [hm, ih rest (elapsed + args.pollInterval) s hrest]

theorem listenLoop_first_match (args : WaitArgs) (hto : args.timeout = none) :
    ∀ (evs extra : List JobStatus) (fin last : JobStatus) (elapsed : Nat)
      (atts : List (Except TransportError JobStatus)),
      (∀ e ∈ evs, matchesTarget args.targets e = false) →
      matchesTarget args.targets fin = true →
      listenLoop args elapsed last (evs ++ fin :: extra) atts =
        ⟨some (.ok fin), evs.length + 1, 0⟩ := by
  intro evs
  induction evs with
  | nil =>
    intro extra fin last elapsed atts _ hfin
    simp [listenLoop, deadlineElapsed, hto, hfin]
  | cons ev tl ih =>
    intro extra fin last elapsed atts hpre hfin
    have hev : matchesTarget args.targets ev = false := hpre ev (by simp)
    simp [listenLoop, deadlineElapsed, hto, hev,
      ih extra fin ev (elapsed + 1) atts
        (fun e he => hpre e (by simp [he])) hfin]

/-- C1: for every sequence of channel events that ends in a terminal status
(its earlier events being non-terminal, since by the glossary a terminal
status admits no further transitions), `wait_for` with an unbounded
deadline and the default target set returns exactly that terminal status,
consumes exactly the events up to and including the match — so it never
invokes the channel after the matching event — and never issues an HTTP
poll. -/
theorem C1_wait_for_returns_final_terminal (args : WaitArgs)
    (initial fin : JobStatus) (evs : List JobStatus)
    (polls : List (Except TransportError JobStatus))
    (hto : args.timeout = none) (htg : args.targets = defaultTargets)
    (hterm : fin.kind.isTerminal = true)
    (hpre : ∀ e ∈ evs, e.kind.isTerminal = false) :
    wait_for args initial (some (evs ++ [fin])) polls =
      ⟨some (.ok fin), evs.length + 1, 0⟩ := by
  simp only [wait_for]
  apply listenLoop_first_match args hto evs [] fin initial 0 polls
  · intro e he
    rw [htg, matchesTarget_default]
    exact hpre e he
  · rw [htg, matchesTarget_default]
    exact hterm

theorem C1_wait_for_returns_final_terminal_witness :
    wait_for ⟨none, defaultTargets, 1, 3⟩ ⟨.SUBMITTED, none, none⟩
      (some ([⟨.QUEUED, none, none⟩, ⟨.RUNNING, none, none⟩] ++
        [⟨.COMPLETED, none, none⟩])) [] =
      ⟨some (.ok ⟨.COMPLETED, none, none⟩), 3, 0⟩ :=
  C1_wait_for_returns_final_terminal _ _ _ _ _ rfl rfl rfl (by decide)

/-- C2: `wait_for` with `timeout = 0` immediately returns a Timeout failure
carrying the status last observed at call time, for every channel trace and
poll trace, consuming no channel event and issuing no poll (it does not
block). -/
theorem C2_wait_for_timeout_zero (args : WaitArgs) (initial : JobStatus)
    (channel : Option (List JobStatus))
    (polls : List (Except TransportError JobStatus))
    (hto : args.timeout = some 0) :
    wait_for args initial channel polls =
      ⟨some (.error (.timedOut initial)), 0, 0⟩ := by
  have hd : ∀ elapsed, deadlineElapsed args.timeout elapsed = true := by
    intro elapsed
    simp [hto, deadlineElapsed]
  cases channel with
  | none =>
    simp only [wait_for]
    rw [pollLoop.eq_def]
    simp [hd]
  | some evs =>
    cases evs with
    | nil =>
      simp only [wait_for, listenLoop]
      rw [pollLoop.eq_def]
      simp [hd]
    | cons ev tl => simp [wait_for, listenLoop, hd]

theorem C2_wait_for_timeout_zero_witness :
    wait_for ⟨some 0, defaultTargets, 1, 3⟩ ⟨.SUBMITTED, none, none⟩
      (some [⟨.COMPLETED, none, none⟩]) [] =
      ⟨some (.error (.timedOut ⟨.SUBMITTED, none, none⟩)), 0, 0⟩ :=
  C2_wait_for_timeout_zero _ _ _ _ rfl

/-- C3: the shared retry primitive (used by the `wait_for` polling loop in
`pollLoop` and by iterator page fetches): two consecutive transient
failures followed by a success resolve to that success alone whenever the
retry bound allows at least two retries; a run of transient failures
exceeding the bound resolves to a transient-exhausted failure; and a
fatal-immediate error propagates at once, consuming no further attempts. -/
theorem C3_retry_policy {α : Type} :
    (∀ (e : TransportError) (a : α)
        (rest : List (Except TransportError α)) (b : Nat),
        e.isTransient = true → 2 ≤ b →
        runWithRetry b (.error e :: .error e :: .ok a :: rest) =
          some (.success a, rest)) ∧
    (∀ (e : TransportError) (rest : List (Except TransportError α))
        (b : Nat),
        e.isTransient = true →
        runWithRetry b (List.replicate (b + 1) (.error e) ++ rest) =
          some (.exhausted e, rest)) ∧
    (∀ (e : TransportError) (rest : List (Except TransportError α))
        (b : Nat),
        e.isTransient = false →
        runWithRetry b (.error e :: rest) = some (.fatalError e, rest)) := by
  refine ⟨?_, ?_, ?_⟩
  · intro e a rest b he hb
    obtain ⟨b', rfl⟩ : ∃ b', b = b' + 2 := ⟨b - 2, by omega⟩
    simp [runWithRetry, he]
  · intro e rest b he
    induction b with
    | zero => simp [runWithRetry, he]
    | succ b ih =>
      rw [List.replicate_succ]
      simp only [List.cons_append, runWithRetry, he, if_true]
      exact ih
  · intro e rest b he
    cases b <;> simp [runWithRetry, he]

theorem C3_retry_policy_witness :
    runWithRetry 3
      [.error .timeout, .error .timeout, .ok (37 : Nat)] =
        some (.success 37, []) ∧
    runWithRetry 1
      [.error (.http5xx 503), .error (.http5xx 503), .ok (5 : Nat)] =
        some (.exhausted (.http5xx 503), [.ok 5]) ∧
    runWithRetry 3 [.error .http404, .ok (9 : Nat)] =
      some (.fatalError .http404, [.ok 9]) :=
  ⟨(C3_retry_policy (α := Nat)).1 .timeout 37 [] 3 rfl (by decide),
    (C3_retry_policy (α := Nat)).2.1 (.http5xx 503) [.ok 5] 1 rfl,
    (C3_retry_policy (α := Nat)).2.2 .http404 [.ok 9] 3 rfl⟩

/-- C4: when the channel is unavailable for the entire wait, `wait_for`
produces exactly the result of the polling-only execution written directly
from the spec's fallback description — the result is independent of the
signal source. -/
theorem C4_wait_for_channel_unavailable (args : WaitArgs)
    (initial : JobStatus)
    (polls : List (Except TransportError JobStatus)) :
    wait_for args initial none polls = pollingOnlyWait args initial polls := by
  simp only [wait_for, pollingOnlyWait]
  exact pollLoop_eq_pollingOnlyAux args polls.length polls 0 initial
    (Nat.le_refl _)

/-- Modelled from the spec: the per-WatchSession states of §4.1's state
machine. -/
inductive SessionState where
  | CONNECTING
  | LISTENING
  | MATCHED
  | CHANNEL_LOST
  | POLLING
  | RETRY_BACKOFF
  | TIMED_OUT
deriving DecidableEq, Repr

/-- Modelled from the spec: the allowed session transitions
"CONNECTING -> LISTENING -> (MATCHED | CHANNEL_LOST) ; CHANNEL_LOST ->
POLLING -> (MATCHED | RETRY_BACKOFF | TIMED_OUT) ; RETRY_BACKOFF ->
POLLING". -/
def allowedTransition : SessionState → SessionState → Bool
  | .CONNECTING, .LISTENING => true
  | .LISTENING, .MATCHED => true
  | .LISTENING, .CHANNEL_LOST => true
  | .CHANNEL_LOST, .POLLING => true
  | .POLLING, .MATCHED => true
  | .POLLING, .RETRY_BACKOFF => true
  | .POLLING, .TIMED_OUT => true
  | .RETRY_BACKOFF, .POLLING => true
  | _, _ => false

/-- Modelled from the spec: "MATCHED and TIMED_OUT are terminal for the
session". -/
def SessionState.isFinal : SessionState → Bool
  | .MATCHED => true
  | .TIMED_OUT => true
  | _ => false

/-- Every adjacent pair of the list is an allowed session transition. -/
def chainOk : List SessionState → Bool
  | [] => true
  | [_] => true
  | s :: t :: rest => allowedTransition s t && chainOk (t :: rest)

/-- No session-terminal state is followed by anything. -/
def finalOnlyAtEnd : List SessionState → Bool
  | [] => true
  | [_] => true
  | s :: t :: rest => ! s.isFinal && finalOnlyAtEnd (t :: rest)

/-- One `RETRY_BACKOFF -> POLLING` excursion per retried transient
failure. -/
def backoffPairs : Nat → List SessionState
  | 0 => []
  | k + 1 => .RETRY_BACKOFF :: .POLLING :: backoffPairs k

/-- Session states visited after POLLING is first entered, mirroring
`pollLoop`: a deadline check first, then one status fetch through the
shared retry primitive (each retried transient failure passing through
RETRY_BACKOFF and back to POLLING), ending in MATCHED on a matching
status, in TIMED_OUT on an elapsed deadline, and with the session torn
down (no further state) when a fetch resolves fatally or the recorded
trace ends. -/
def pollTraceTail (args : WaitArgs) (elapsed : Nat)
    (atts : List (Except TransportError JobStatus)) : List SessionState :=
  if deadlineElapsed args.timeout elapsed then [.TIMED_OUT]
  else
    match hr : runWithRetry args.retryBound atts with
    | none => []
    | some (.fatalError _, rest) =>
      backoffPairs (atts.length - rest.length - 1)
    | some (.exhausted _, rest) =>
      backoffPairs (atts.length - rest.length - 1)
    | some (.success s, rest) =>
      backoffPairs (atts.length - rest.length - 1) ++
        (if matchesTarget args.targets s then [.MATCHED]
         else pollTraceTail args (elapsed + args.pollInterval) rest)
termination_by atts.length
decreasing_by exact runWithRetry_length hr

/-- Session states visited after LISTENING is entered, mirroring
`listenLoop`: a target match ends in MATCHED; the channel closing (or the
deadline elapsing, which tears the channel down) passes through
CHANNEL_LOST into POLLING. -/
def listenTrace (args : WaitArgs) (elapsed : Nat) (evs : List JobStatus)
    (atts : List (Except TransportError JobStatus)) : List SessionState :=
  match evs with
  | [] => .CHANNEL_LOST :: .POLLING :: pollTraceTail args elapsed atts
  | ev :: rest =>
    if deadlineElapsed args.timeout elapsed then
      [.CHANNEL_LOST, .POLLING, .TIMED_OUT]
    else if matchesTarget args.targets ev then [.MATCHED]
    else listenTrace args (elapsed + 1) rest atts

/-- The full session-state evolution of one `wait_for` run: the session is
created CONNECTING, reaches LISTENING, and proceeds per `listenTrace`
(a channel that cannot open behaves as one that closes before any
event). -/
def sessionTrace (args : WaitArgs) (channel : Option (List JobStatus))
    (polls : List (Except TransportError JobStatus)) : List SessionState :=
  .CONNECTING :: .LISTENING :: listenTrace args 0 (channel.getD []) polls

theorem chainOk_backoffPairs (l : List SessionState) :
    ∀ k, chainOk (.POLLING :: (backoffPairs k ++ l)) =
      chainOk (.POLLING :: l) := by
  intro k
  induction k with
  | zero => rfl
  | succ k ih =>
    simp only [backoffPairs, List.cons_append]
    rw [show chainOk (.POLLING :: .RETRY_BACKOFF :: .POLLING ::
      (backoffPairs k ++ l)) = chainOk (.POLLING :: (backoffPairs k ++ l))
      from by simp [chainOk, allowedTransition]]
    exact ih

theorem finalOnlyAtEnd_backoffPairs (l : List SessionState) :
    ∀ k, finalOnlyAtEnd (.POLLING :: (backoffPairs k ++ l)) =
      finalOnlyAtEnd (.POLLING :: l) := by
  intro k
  induction k with
  | zero => rfl
  | succ k ih =>
    simp only [backoffPairs, List.cons_append]
    rw [show finalOnlyAtEnd (.POLLING :: .RETRY_BACKOFF :: .POLLING ::
      (backoffPairs k ++ l)) =
        finalOnlyAtEnd (.POLLING :: (backoffPairs k ++ l))
      from by simp [finalOnlyAtEnd, SessionState.isFinal]]
    exact ih

theorem pollTraceTail_chain (args : WaitArgs) :
    ∀ (n : Nat) (atts : List (Except TransportError JobStatus))
      (elapsed : Nat), atts.length ≤ n →
      chainOk (.POLLING :: pollTraceTail args elapsed atts) = true ∧
      finalOnlyAtEnd (.POLLING :: pollTraceTail args elapsed atts) = true := by
  intro n
  induction n with
  | zero =>
    intro atts elapsed hn
    have : atts = [] := List.length_eq_zero.mp (Nat.le_zero.mp hn)
    subst this
    rw [pollTraceTail.eq_def]
    cases hd : deadlineElapsed args.timeout elapsed with
    | true => simp [hd, chainOk, allowedTransition, finalOnlyAtEnd,
        SessionState.isFinal]
    | false =>
      simp only [hd, Bool.false_eq_true, if_false]
      split
      · simp [chainOk, finalOnlyAtEnd]
      · rename_i e rest hr
        simp [runWithRetry] at hr
      · rename_i e rest hr
        simp [runWithRetry] at hr
      · rename_i s rest hr
        simp [runWithRetry] at hr
  | succ n ih =>
    intro atts elapsed hn
    rw [pollTraceTail.eq_def]
    cases hd : deadlineElapsed args.timeout elapsed with
    | true => simp [hd, chainOk, allowedTransition, finalOnlyAtEnd,
        SessionState.isFinal]
    | false =>
      simp only [hd, Bool.false_eq_true, if_false]
      split
      · simp [chainOk, finalOnlyAtEnd]
      · rw [← List.append_nil (backoffPairs _), chainOk_backoffPairs,
          finalOnlyAtEnd_backoffPairs]
        simp [chainOk, finalOnlyAtEnd]
      · rw [← List.append_nil (backoffPairs _), chainOk_backoffPairs,
          finalOnlyAtEnd_backoffPairs]
        simp [chainOk, finalOnlyAtEnd]
      · rename_i s rest hr
        have hlen := runWithRetry_length hr
        have hrest : rest.length ≤ n := by omega
        rw [chainOk_backoffPairs, finalOnlyAtEnd_backoffPairs]
        cases hm : matchesTarget args.targets s with
        | true => simp [hm, chainOk, allowedTransition, finalOnlyAtEnd,
            SessionState.isFinal]
        | false =>
          simp only [hm, Bool.false_eq_true, if_false]
          exact ih rest (elapsed + args.pollInterval) hrest

theorem listenTrace_chain (args : WaitArgs) :
    ∀ (evs : List JobStatus) (elapsed : Nat)
      (atts : List (Except TransportError JobStatus)),
      chainOk (.LISTENING :: listenTrace args elapsed evs atts) = true ∧
      finalOnlyAtEnd (.LISTENING :: listenTrace args elapsed evs atts) =
        true := by
  intro evs
  induction evs with
  | nil =>
    intro elapsed atts
    have hp := pollTraceTail_chain args atts.length atts elapsed
      (Nat.le_refl _)
    simp only [listenTrace]
    constructor
    · simp only [chainOk, allowedTransition, Bool.true_and]
      exact hp.1
    · simp only [finalOnlyAtEnd, SessionState.isFinal, Bool.not_false,
        Bool.true_and]
      exact hp.2
  | cons ev rest ih =>
    intro elapsed atts
    simp only [listenTrace]
    cases hd : deadlineElapsed args.timeout elapsed with
    | true => simp [hd, chainOk, allowedTransition, finalOnlyAtEnd,
        SessionState.isFinal]
    | false =>
      cases hm : matchesTarget args.targets ev with
      | true => simp [hd, hm, chainOk, allowedTransition, finalOnlyAtEnd,
          SessionState.isFinal]
      | false =>
        simp only [hd, hm, Bool.false_eq_true, if_false]
        exact ih (elapsed + 1) atts

/-- C8: every WatchSession produced by a `wait_for` run follows the session
state machine: it starts at CONNECTING, every adjacent pair of visited
states is one of the allowed transitions (CONNECTING to LISTENING,
LISTENING to MATCHED or CHANNEL_LOST, CHANNEL_LOST to POLLING, POLLING to
MATCHED, RETRY_BACKOFF or TIMED_OUT, RETRY_BACKOFF back to POLLING), and
no state follows MATCHED or TIMED_OUT. -/
theorem C8_session_state_machine (args : WaitArgs)
    (channel : Option (List JobStatus))
    (polls : List (Except TransportError JobStatus)) :
    (sessionTrace args channel polls).head? = some .CONNECTING ∧
    chainOk (sessionTrace args channel polls) = true ∧
    finalOnlyAtEnd (sessionTrace args channel polls) = true := by
  have hl := listenTrace_chain args (channel.getD []) 0 polls
  refine ⟨rfl, ?_, ?_⟩
  · simp only [sessionTrace, chainOk, allowedTransition, Bool.true_and]
    exact hl.1
  · simp only [sessionTrace, finalOnlyAtEnd, SessionState.isFinal,
      Bool.not_false, Bool.true_and]
    exact hl.2

/-- Modelled from the spec: the LazyResultIterator / NexusIterator of §3
and §4.2 (the package class `qnexus.client.nexus_iterator.NexusIterator`
is missing from the tree; only notebook callers are present).  `query`
denotes the wrapped query specification by the ordered pages the remote
collection holds for it; `pagesLeft` is the suffix of pages the cursor has
not yet fetched; `buffer` holds fetched but unconsumed item descriptors. -/
structure NexusIterator (α : Type) where
  query : List (List α)
  pagesLeft : List (List α)
  buffer : List α
deriving DecidableEq, Repr

/-- A freshly constructed iterator: cursor at the start, empty buffer. -/
def NexusIterator.fresh {α : Type} (q : List (List α)) : NexusIterator α :=
  ⟨q, q, []⟩

/-- Core of `next_item` on the cursor/buffer pair: yield the next buffered
item, or fetch pages (skipping empty ones) until one yields an item, or
report end of sequence. -/
def nextItemAux {α : Type} :
    List (List α) → List α → Option α × (List (List α) × List α)
  | pages, x :: buf => (some x, (pages, buf))
  | [], [] => (none, ([], []))
  | p :: rest, [] => nextItemAux rest p

/-- Modelled from the spec: `next_item()` "fetches and buffers one page if
the current buffer is exhausted, then yields the next buffered item ...
Advancing past the last page yields EndOfSequence" (`none` here). -/
def NexusIterator.next_item {α : Type} (it : NexusIterator α) :
    Option α × NexusIterator α :=
  match nextItemAux it.pagesLeft it.buffer with
  | (o, (ps, b)) => (o, ⟨it.query, ps, b⟩)

/-- Modelled from the spec: `list()` "drains all remaining pages from the
current cursor to the end, returns them as a concrete owned sequence". -/
def NexusIterator.list {α : Type} (it : NexusIterator α) : List α :=
  it.buffer ++ it.pagesLeft.flatten

/-- Modelled from the spec: `count()` "issues a dedicated lightweight
request for total matching item count, independent of any page buffer /
cursor state already advanced.  Does not consume the forward-only
sequence." -/
def NexusIterator.count {α : Type} (it : NexusIterator α) :
    Nat × NexusIterator α :=
  (it.query.flatten.length, it)

/-- Modelled from the spec: `summarize()` "issues a request for a
server-computed aggregate (e.g., status-count breakdown) over the full
query, independent of pagination state". -/
def summarizeStatuses (it : NexusIterator JobStatus) :
    JobStatusKind → Nat :=
  fun k => (it.query.flatten.filter (fun s => decide (s.kind = k))).length

/-- A tabular rendering: named columns and one row of cells per item. -/
structure Table where
  columns : List String
  rows : List (List String)
deriving DecidableEq, Repr

/-- Modelled from the spec: the `df()`-equivalent tabular view, "same drain
semantics as `list()`", with the item type's rendering supplied as the
column list and a per-item row function. -/
def NexusIterator.df {α : Type} (it : NexusIterator α)
    (cols : List String) (render : α → List String) : Table :=
  ⟨cols, it.list.map render⟩

theorem nextItemAux_some_measure {α : Type} :
    ∀ (pages : List (List α)) (buf : List α) (x : α)
      (ps : List (List α)) (b : List α),
      nextItemAux pages buf = (some x, (ps, b)) →
      b.length + ps.flatten.length + ps.length <
        buf.length + pages.flatten.length + pages.length := by
  intro pages
  induction pages with
  | nil =>
    intro buf x ps b h
    cases buf with
    | nil => simp [nextItemAux] at h
    | cons y t =>
      simp [nextItemAux] at h
      obtain ⟨rfl, rfl, rfl⟩ := h
      simp
  | cons p rest ih =>
    intro buf x ps b h
    cases buf with
    | nil =>
      simp only [nextItemAux] at h
      have := ih p x ps b h
      simp only [List.flatten_cons, List.length_cons, List.length_append]
      omega
    | cons y t =>
      simp [nextItemAux] at h
      obtain ⟨rfl, rfl, rfl⟩ := h
      simp

theorem nextItemAux_none {α : Type} :
    ∀ (pages : List (List α)) (buf : List α) (ps : List (List α))
      (b : List α),
      nextItemAux pages buf = (none, (ps, b)) →
      buf = [] ∧ pages.flatten = [] := by
  intro pages
  induction pages with
  | nil =>
    intro buf ps b h
    cases buf with
    | nil => simp
    | cons y t => simp [nextItemAux] at h
  | cons p rest ih =>
    intro buf ps b h
    cases buf with
    | nil =>
      simp only [nextItemAux] at h
      have := ih p ps b h
      simp [this.1, this.2]
    | cons y t => simp [nextItemAux] at h

theorem nextItemAux_some_list {α : Type} :
    ∀ (pages : List (List α)) (buf : List α) (x : α)
      (ps : List (List α)) (b : List α),
      nextItemAux pages buf = (some x, (ps, b)) →
      buf ++ pages.flatten = x :: (b ++ ps.flatten) := by
  intro pages
  induction pages with
  | nil =>
    intro buf x ps b h
    cases buf with
    | nil => simp [nextItemAux] at h
    | cons y t =>
      simp [nextItemAux] at h
      obtain ⟨rfl, rfl, rfl⟩ := h
      simp
  | cons p rest ih =>
    intro buf x ps b h
    cases buf with
    | nil =>
      simp only [nextItemAux] at h
      have := ih p x ps b h
      simpa using this
    | cons y t =>
      simp [nextItemAux] at h
      obtain ⟨rfl, rfl, rfl⟩ := h
      simp

/-- Repeatedly calling `next_item` until EndOfSequence, collecting the
items in order. -/
def NexusIterator.drain {α : Type} (it : NexusIterator α) : List α :=
  match h : it.next_item with
  | (none, _) => []
  | (some x, it') => x :: it'.drain
termination_by it.buffer.length + it.pagesLeft.flatten.length +
  it.pagesLeft.length
decreasing_by
  simp only [NexusIterator.next_item] at h
  rcases ha : nextItemAux it.pagesLeft it.buffer with ⟨o, ps, b⟩
  rw [ha] at h
  simp only [Prod.mk.injEq] at h
  obtain ⟨ho, hit⟩ := h
  rw [ho] at ha
  rw [← hit]
  exact nextItemAux_some_measure it.pagesLeft it.buffer x ps b ha

theorem next_item_some_list {α : Type} (it it' : NexusIterator α) (x : α)
    (h : it.next_item = (some x, it')) :
    it.list = x :: it'.list ∧ it'.query = it.query := by
  simp only [NexusIterator.next_item] at h
  rcases ha : nextItemAux it.pagesLeft it.buffer with ⟨o, ps, b⟩
  rw [ha] at h
  simp only [Prod.mk.injEq] at h
  obtain ⟨ho, hit⟩ := h
  rw [ho] at ha
  constructor
  · rw [← hit]
    simpa [NexusIterator.list] using
      nextItemAux_some_list it.pagesLeft it.buffer x ps b ha
  · rw [← hit]

theorem next_item_none_list {α : Type} (it it' : NexusIterator α)
    (h : it.next_item = (none, it')) : it.list = [] := by
  simp only [NexusIterator.next_item] at h
  rcases ha : nextItemAux it.pagesLeft it.buffer with ⟨o, ps, b⟩
  rw [ha] at h
  simp only [Prod.mk.injEq] at h
  rw [h.1] at ha
  have hnn := nextItemAux_none it.pagesLeft it.buffer ps b ha
  simp [NexusIterator.list, hnn.1, hnn.2]

theorem next_item_some_measure {α : Type} (it it' : NexusIterator α)
    (x : α) (h : it.next_item = (some x, it')) :
    it'.buffer.length + it'.pagesLeft.flatten.length +
        it'.pagesLeft.length <
      it.buffer.length + it.pagesLeft.flatten.length +
        it.pagesLeft.length := by
  simp only [NexusIterator.next_item] at h
  rcases ha : nextItemAux it.pagesLeft it.buffer with ⟨o, ps, b⟩
  rw [ha] at h
  simp only [Prod.mk.injEq] at h
  obtain ⟨ho, hit⟩ := h
  rw [ho] at ha
  rw [← hit]
  exact nextItemAux_some_measure it.pagesLeft it.buffer x ps b ha

theorem drain_eq_list {α : Type} :
    ∀ (n : Nat) (it : NexusIterator α),
      it.buffer.length + it.pagesLeft.flatten.length +
          it.pagesLeft.length ≤ n →
      it.drain = it.list := by
  intro n
  induction n with
  | zero =>
    intro it hn
    rw [NexusIterator.drain.eq_def]
    split
    · rename_i it'' hnone
      exact (next_item_none_list it it'' hnone).symm
    · rename_i x it' hsome
      have := next_item_some_measure it it' x hsome
      omega
  | succ n ih =>
    intro it hn
    rw [NexusIterator.drain.eq_def]
    split
    · rename_i it'' hnone
      exact (next_item_none_list it it'' hnone).symm
    · rename_i x it' hsome
      have hm := next_item_some_measure it it' x hsome
      have hl := next_item_some_list it it' x hsome
      rw [hl.1, ih it' (by omega)]

/-- C5: `list()` drains exactly the items from the current cursor to the
end: on any iterator state it returns the same ordered items as repeatedly
calling `next_item()` until EndOfSequence (so in particular on a freshly
constructed iterator), and after an item has been consumed via
`next_item()` the listing loses exactly that item from its front — no
duplication, and no reset of the wrapped query (the query denotation is
untouched). -/
theorem C5_list_drains_from_cursor {α : Type} :
    (∀ it : NexusIterator α, it.drain = it.list) ∧
    (∀ (it it' : NexusIterator α) (x : α), it.next_item = (some x, it') →
      it.list = x :: it'.list ∧ it'.query = it.query) := by
  constructor
  · intro it
    exact drain_eq_list _ it (Nat.le_refl _)
  · intro it it' x h
    exact next_item_some_list it it' x h

theorem C5_list_drains_from_cursor_witness :
    (NexusIterator.fresh [[1, 2], [3]] : NexusIterator Nat).drain =
        (NexusIterator.fresh [[1, 2], [3]]).list ∧
    ((NexusIterator.fresh [[1, 2], [3]] : NexusIterator Nat).list =
        1 :: (⟨[[1, 2], [3]], [[3]], [2]⟩ : NexusIterator Nat).list ∧
      (⟨[[1, 2], [3]], [[3]], [2]⟩ : NexusIterator Nat).query =
        (NexusIterator.fresh [[1, 2], [3]]).query) :=
  ⟨(C5_list_drains_from_cursor (α := Nat)).1 _,
    (C5_list_drains_from_cursor (α := Nat)).2 _ _ 1 rfl⟩

/-- C6: `count()` leaves the iterator's forward position unchanged —
`next_item()` after `count()` returns exactly what it would have returned
without the `count()` call (and the remaining listing is unchanged too);
the count itself is the total item count of the full query, independent of
the cursor. -/
theorem C6_count_preserves_position {α : Type} (it : NexusIterator α) :
    (it.count.2).next_item = it.next_item ∧
    (it.count.2).list = it.list ∧
    it.count.1 = it.query.flatten.length :=
  ⟨rfl, rfl, rfl⟩

/-- C7: on an empty remote collection no iterator operation fails:
`list()` is the empty sequence, `count()` is 0, `summarize()` counts zero
for every status kind, and the tabular view is an empty table that still
carries the correct columns. -/
theorem C7_empty_collection_safe (q : List (List JobStatus))
    (cols : List String) (render : JobStatus → List String)
    (hq : q.flatten = []) :
    (NexusIterator.fresh q).list = [] ∧
    (NexusIterator.fresh q).count.1 = 0 ∧
    (∀ k, summarizeStatuses (NexusIterator.fresh q) k = 0) ∧
    (NexusIterator.fresh q).df cols render = ⟨cols, []⟩ := by
  refine ⟨?_, ?_, ?_, ?_⟩ <;>
    simp [NexusIterator.fresh, NexusIterator.list, NexusIterator.count,
      summarizeStatuses, NexusIterator.df, hq]

theorem C7_empty_collection_safe_witness :
    (NexusIterator.fresh ([] : List (List JobStatus))).list = [] ∧
    (NexusIterator.fresh ([] : List (List JobStatus))).count.1 = 0 ∧
    summarizeStatuses (NexusIterator.fresh []) .COMPLETED = 0 ∧
    (NexusIterator.fresh ([] : List (List JobStatus))).df ["name"]
        (fun _ => []) = ⟨["name"], []⟩ :=
  have h := C7_empty_collection_safe [] ["name"] (fun _ => []) rfl
  ⟨h.1, h.2.1, h.2.2.1 .COMPLETED, h.2.2.2⟩

/-- The session state at which a wait outcome leaves (or strands) the
session: a match ends at MATCHED, a deadline at TIMED_OUT, and a fatal or
exhausted fetch — or an attempt trace that runs out — leaves the session
at POLLING (the raise, or the unrecorded remainder, happens there). -/
def outcomeState : Option (Except WaitFailure JobStatus) → SessionState
  | some (.ok _) => .MATCHED
  | some (.error (.timedOut _)) => .TIMED_OUT
  | _ => .POLLING

theorem getLastD_backoffPairs (l : List SessionState) :
    ∀ k, (backoffPairs k ++ l).getLastD .POLLING =
      l.getLastD .POLLING := by
  intro k
  induction k with
  | zero => rfl
  | succ k ih =>
    simp only [backoffPairs, List.cons_append, List.getLastD_cons]
    exact ih

theorem pollTraceTail_last (args : WaitArgs) :
    ∀ (n : Nat) (atts : List (Except TransportError JobStatus))
      (elapsed : Nat) (last : JobStatus), atts.length ≤ n →
      (pollTraceTail args elapsed atts).getLastD .POLLING =
        outcomeState (pollLoop args elapsed last atts).outcome := by
  intro n
  induction n with
  | zero =>
    intro atts elapsed last hn
    have : atts = [] := List.length_eq_zero.mp (Nat.le_zero.mp hn)
    subst this
    rw [pollTraceTail.eq_def, pollLoop.eq_def]
    cases hd : deadlineElapsed args.timeout elapsed with
    | true => simp [hd, outcomeState]
    | false =>
      simp only [hd, Bool.false_eq_true, if_false]
      split
      · rfl
      · rename_i e rest hr
        simp [runWithRetry] at hr
      · rename_i e rest hr
        simp [runWithRetry] at hr
      · rename_i s rest hr
        simp [runWithRetry] at hr
  | succ n ih =>
    intro atts elapsed last hn
    rw [pollTraceTail.eq_def, pollLoop.eq_def]
    cases hd : deadlineElapsed args.timeout elapsed with
    | true => simp [hd, outcomeState]
    | false =>
      simp only [hd, Bool.false_eq_true, if_false]
      split
      · rfl
      · rw [← List.append_nil (backoffPairs _), getLastD_backoffPairs]
        rfl
      · rw [← List.append_nil (backoffPairs _), getLastD_backoffPairs]
        rfl
      · rename_i s rest hr
        have hlen := runWithRetry_length hr
        have hrest : rest.length ≤ n := by omega
        rw [getLastD_backoffPairs]
        cases hm : matchesTarget args.targets s with
        | true => simp [hm, outcomeState]
        | false =>
          simp only [hm, Bool.false_eq_true, if_false]
          exact ih rest (elapsed + args.pollInterval) s hrest

theorem listenTrace_last (args : WaitArgs) :
    ∀ (evs : List JobStatus) (elapsed : Nat) (last : JobStatus)
      (atts : List (Except TransportError JobStatus)),
      (listenTrace args elapsed evs atts).getLastD .LISTENING =
        outcomeState (listenLoop args elapsed last evs atts).outcome := by
  intro evs
  induction evs with
  | nil =>
    intro elapsed last atts
    simp only [listenTrace, listenLoop, List.getLastD_cons]
    exact pollTraceTail_last args atts.length atts elapsed last
      (Nat.le_refl _)
  | cons ev rest ih =>
    intro elapsed last atts
    simp only [listenTrace, listenLoop]
    cases hd : deadlineElapsed args.timeout elapsed with
    | true => simp [hd, outcomeState]
    | false =>
      cases hm : matchesTarget args.targets ev with
      | true => simp [hd, hm, outcomeState]
      | false =>
        simp only [hd, hm, Bool.false_eq_true, if_false]
        exact ih (elapsed + 1) ev atts

/-- The session trace is a faithful instrument of `wait_for`: its final
visited state is MATCHED exactly when the wait returns a matched status,
TIMED_OUT exactly when it times out, and POLLING when the session raises a
fatal/exhausted failure there (or the recorded trace ends). -/
theorem sessionTrace_last_outcome (args : WaitArgs) (initial : JobStatus)
    (channel : Option (List JobStatus))
    (polls : List (Except TransportError JobStatus)) :
    (sessionTrace args channel polls).getLastD .CONNECTING =
      outcomeState (wait_for args initial channel polls).outcome := by
  cases channel with
  | none =>
    simp only [sessionTrace, Option.getD, List.getLastD_cons, wait_for]
    have h := listenTrace_last args [] 0 initial polls
    simpa [listenLoop] using h
  | some evs =>
    simp only [sessionTrace, Option.getD, List.getLastD_cons, wait_for]
    exact listenTrace_last args evs 0 initial polls

/-- Modelled from the docs in the tree: a `Ref` proxy object referencing
remote data (a project, circuit or job) by an opaque identity, carrying
human-readable metadata. -/
structure Ref where
  id : Nat
  name : String
deriving DecidableEq, Repr

/-- Failure modes of a singular `get` query. -/
inductive GetError where
  | noMatches
  | multipleMatches
deriving DecidableEq, Repr

/-- Modelled from the docs in the tree: "`get` functions ... take filters
and try to return a single matching `Ref`", and "this will error if there
is not exactly one matching Ref" (the package implementation is missing
from the tree).  `ms` is the ordered sequence of Refs matching the query,
as `get_all` would enumerate them. -/
def get (ms : List Ref) : Except GetError Ref :=
  match ms with
  | [] => .error .noMatches
  | [r] => .ok r
  | _ :: _ :: _ => .error .multipleMatches

/-- C9: a singular `get` query returns a Ref exactly when precisely one
Ref matches: `get` succeeds with `r` iff the match list is `[r]`; an empty
match list errors with no-matches, and two or more matches error with
multiple-matches. -/
theorem C9_get_exactly_one (ms : List Ref) :
    (∀ r : Ref, get ms = .ok r ↔ ms = [r]) ∧
    (ms = [] → get ms = .error .noMatches) ∧
    (2 ≤ ms.length → get ms = .error .multipleMatches) := by
  refine ⟨?_, ?_, ?_⟩
  · intro r
    constructor
    · intro h
      match ms, h with
      | [a], h =>
        simp [get] at h
        simp [h]
    · intro h
      subst h
      rfl
  · intro h
    subst h
    rfl
  · intro h
    match ms, h with
    | a :: b :: t, _ => rfl

theorem C9_get_exactly_one_witness :
    get [⟨1, "p"⟩] = .ok ⟨1, "p"⟩ ∧
    get [] = .error .noMatches ∧
    get [⟨1, "p"⟩, ⟨2, "q"⟩] = .error .multipleMatches :=
  ⟨((C9_get_exactly_one [⟨1, "p"⟩]).1 ⟨1, "p"⟩).mpr rfl,
    (C9_get_exactly_one []).2.1 rfl,
    (C9_get_exactly_one [⟨1, "p"⟩, ⟨2, "q"⟩]).2.2 (by decide)⟩

/-- Modelled from the docs in the tree: `qnx.filesystem.save(ref, path)`
persists a Ref at a filesystem path (the package module
`qnexus.filesystem` is missing from the tree).  The filesystem is a map
from paths to stored Refs. -/
def filesystem_save (fs : List String → Option Ref) (path : List String)
    (r : Ref) : List String → Option Ref :=
  fun p => if p = path then some r else fs p

/-- Modelled from the docs in the tree: `qnx.filesystem.load(path)` reads
back the Ref stored at a path. -/
def filesystem_load (fs : List String → Option Ref)
    (path : List String) : Option Ref :=
  fs path

/-- Modelled from the docs in the tree: `qnx.jobs.status(ref)` fetches the
remote status of the job a Ref points to; it depends only on the
referenced job's identity, `statusOf` standing for the remote platform's
current status table. -/
def jobs_status (statusOf : Nat → JobStatus) (r : Ref) : JobStatus :=
  statusOf r.id

/-- C10: saving a job Ref to a path and loading that path yields the
original Ref back, and status queries on the loaded Ref agree with status
queries on the original, whatever the remote status table says. -/
theorem C10_save_load_roundtrip (fs : List String → Option Ref)
    (path : List String) (r : Ref) (statusOf : Nat → JobStatus) :
    filesystem_load (filesystem_save fs path r) path = some r ∧
    (filesystem_load (filesystem_save fs path r) path).map
        (jobs_status statusOf) = some (jobs_status statusOf r) := by
  constructor <;> simp [filesystem_load, filesystem_save]

end QNexus
